import Mathlib

/-!
Verification development for the Muziq-Slides slideshow engine.

The definitions below are a shallow embedding of the relevant parts of
src/App.tsx (identical code also appears in the second source file):
the slide-speed auto-adjustment effect and its one-shot re-entrancy flag,
the asynchronous probe-and-adjust resolution, the SlideshowPlayer slide
timer, video ended listener and audio fade-out, the caption generation
pass, and the media upload handler.  Durations and volumes are modelled
as rationals, intervals as integers, ids as strings.
-/

namespace Muziq

/-- Kind of a media item: the source discriminates items by type
image or video. -/
inductive MKind
  | image
  | video
  deriving DecidableEq

/-- A media item of the editing session: stable id, kind, and an optional
caption (only images receive captions in the source). -/
structure MediaItem where
  id : String
  kind : MKind
  caption : Option String
  deriving DecidableEq

/-! ## Duration aggregator (synchronous tail of calculateAndAdjust) -/

/-- What calculateAndAdjust does to the adjustment notification:
call setAdjustmentNotification with a message, conditionally clear it
(the else branch only calls setAdjustmentNotification(null) when the
captured notification was non-null), or leave it untouched. -/
inductive NoticeAction
  | set (msg : String)
  | clearIfSet
  | skip
  deriving DecidableEq

/-- Apply a NoticeAction to the notification state.  The clearIfSet guard
reads the notification captured by the closure of the run that resolves,
which may differ from the current one for a stale asynchronous run. -/
def applyNotice (captured current : Option String) : NoticeAction → Option String
  | NoticeAction.set m => some m
  | NoticeAction.clearIfSet => if captured.isSome then none else current
  | NoticeAction.skip => current

/-- Result of the synchronous tail of calculateAndAdjust: the resulting
interval, whether setIntervalValue was called (always together with setting
the isAutoAdjusting flag), and the notification action. -/
structure AdjustResult where
  interval : ℤ
  wroteInterval : Bool
  act : NoticeAction
  deriving DecidableEq

/-- Notification text used when the interval is auto-adjusted. -/
def adjustedMsg (i : ℤ) : String :=
  s!"Slide speed automatically adjusted to {i}s to match song length."

/-- Notification text used when the song is shorter than the video content. -/
def tooShortMsg : String :=
  "Song is shorter than video content. Slide speed set to minimum (1s)."

/-- The synchronous tail of calculateAndAdjust (src/App.tsx, lines 608-630),
once the audio duration and the video durations have been probed. -/
def computeAdjustment (imageCount : ℕ) (videoDurations : List ℚ)
    (audioDuration : ℚ) (interval : ℤ) : AdjustResult :=
  let totalVideoDuration := videoDurations.sum
  let currentTotalSlideshowDuration :=
    (imageCount : ℚ) * (interval : ℚ) + totalVideoDuration
  if audioDuration < currentTotalSlideshowDuration then
    let availableTimeForImages := audioDuration - totalVideoDuration
    if 0 < availableTimeForImages then
      let newInterval : ℤ := max 1 ⌊availableTimeForImages / (imageCount : ℚ)⌋
      if newInterval = interval then ⟨interval, false, NoticeAction.skip⟩
      else ⟨newInterval, true, NoticeAction.set (adjustedMsg newInterval)⟩
    else
      if interval = 1 then ⟨interval, false, NoticeAction.skip⟩
      else ⟨1, true, NoticeAction.set tooShortMsg⟩
  else ⟨interval, false, NoticeAction.clearIfSet⟩

/-! ## Auto-adjustment controller (the effect with the isAutoAdjusting ref) -/

/-- State touched by the auto-adjustment effect: the isAutoAdjusting ref,
the interval and the adjustment notification. -/
structure CtrlState where
  flag : Bool
  interval : ℤ
  notice : Option String
  deriving DecidableEq

/-- Inputs watched by the auto-adjustment effect: the audio file together
with its probed duration (none when no audio file is selected), the image
count and the probed video durations. -/
structure Inputs where
  audio : Option ℚ
  imageCount : ℕ
  videoDurations : List ℚ
  deriving DecidableEq

/-- One invocation of the auto-adjustment effect (src/App.tsx, lines
574-635), with the asynchronous probe resolving against the same inputs
(the overlapping-runs behaviour is modelled separately by resolveRun).
The first guard consumes the one-shot isAutoAdjusting flag; the second
guard clears the notification when there is no audio or no image. -/
def ctrlStep (inp : Inputs) (s : CtrlState) : CtrlState :=
  if s.flag then { s with flag := false }
  else
    match inp.audio with
    | none => { s with notice := none }
    | some audioDuration =>
      if inp.imageCount = 0 then { s with notice := none }
      else
        let r := computeAdjustment inp.imageCount inp.videoDurations
          audioDuration s.interval
        { flag := r.wroteInterval, interval := r.interval,
          notice := applyNotice s.notice s.notice r.act }

/-- Whether an invocation of the auto-adjustment effect calls
setIntervalValue. -/
def ctrlWrites (inp : Inputs) (s : CtrlState) : Bool :=
  if s.flag then false
  else
    match inp.audio with
    | none => false
    | some audioDuration =>
      if inp.imageCount = 0 then false
      else (computeAdjustment inp.imageCount inp.videoDurations
        audioDuration s.interval).wroteInterval

/-- Number of setIntervalValue calls over n consecutive invocations of the
auto-adjustment effect at fixed inputs. -/
def writeCount (inp : Inputs) : ℕ → CtrlState → ℕ
  | 0, _ => 0
  | n + 1, s =>
    (if ctrlWrites inp s then 1 else 0) + writeCount inp n (ctrlStep inp s)

/-- The closure snapshot captured by one asynchronous calculateAndAdjust
run: the inputs and the interval and notification read from the render in
which the effect fired. -/
structure Snapshot where
  imageCount : ℕ
  videoDurations : List ℚ
  audioDuration : ℚ
  interval : ℤ
  notice : Option String
  deriving DecidableEq

/-- Resolution of one asynchronous calculateAndAdjust run against the
current state: the computation uses only the snapshot, and its writes are
applied unconditionally to the current state (the source has no staleness
check, no cancellation and no snapshot token). -/
def resolveRun (snap : Snapshot) (s : CtrlState) : CtrlState :=
  let r := computeAdjustment snap.imageCount snap.videoDurations
    snap.audioDuration snap.interval
  { flag := if r.wroteInterval then true else s.flag,
    interval := if r.wroteInterval then r.interval else s.interval,
    notice := applyNotice snap.notice s.notice r.act }

/-! ## SlideshowPlayer: slide timer, video ended listener, audio fade -/

/-- Whether the slide-advancing timer is armed for the given media list and
current index (src/App.tsx, lines 1099-1113): the effect returns early when
fewer than two items exist, and only arms the timer for an image. -/
def slideTimerArmed (media : List MediaItem) (currentIndex : ℕ) : Bool :=
  if media.length < 2 then false
  else
    match media[currentIndex]? with
    | some m => decide (m.kind = MKind.image)
    | none => false

/-- Whether a video ended listener is attached for the given media list and
current index (src/App.tsx, lines 1201-1209): the rendered video element
carries onEnded whenever the current item is a video, with no guard on the
number of items. -/
def endedListenerArmed (media : List MediaItem) (currentIndex : ℕ) : Bool :=
  match media[currentIndex]? with
  | some m => decide (m.kind = MKind.video)
  | none => false

/-- advanceSlide from the source: the next index modulo the number of
items. -/
def advanceSlide (len idx : ℕ) : ℕ := (idx + 1) % len

/-- The timer handle scheduled by the audio fade-out effect: tick period in
milliseconds and per-tick volume decrement. -/
structure FadeTimer where
  tickMs : ℕ
  decrement : ℚ
  deriving DecidableEq

/-- The audio fade-out effect (src/App.tsx, lines 1126-1159): on the last
index with more than one item, unless the fade duration is nonpositive,
schedule 50ms ticks with decrement volume divided by the tick count. -/
def armFade (intervalSeconds : ℤ) (len currentIndex : ℕ) (volume : ℚ) :
    Option FadeTimer :=
  if currentIndex = len - 1 ∧ 1 < len then
    let fadeDurationMs := intervalSeconds * 1000
    if fadeDurationMs ≤ 0 then none
    else some ⟨50, volume / ((fadeDurationMs : ℚ) / 50)⟩
  else none

/-- Volume after k fade ticks: each tick subtracts the fixed decrement and
clamps at zero, exactly as the setInterval body does. -/
def fadeVolume (v0 dec : ℚ) : ℕ → ℚ
  | 0 => v0
  | k + 1 => max 0 (fadeVolume v0 dec k - dec)

/-! ## Caption generation -/

/-- Caption status surfaced to the user. -/
inductive CaptionStatus
  | idle
  | generating
  | done
  | error
  deriving DecidableEq

/-- Whether the source's truthiness test on item.caption selects the item
for captioning: a missing caption or an empty-string caption (an empty
string is falsy in the source, and one can be produced by trimming the
caption text the service returns). -/
def captionMissing : Option String → Bool
  | none => true
  | some s => s.isEmpty

/-- The images selected for captioning: images whose caption is absent or
the empty string, matching the source's truthiness filter. -/
def imagesToCaption (media : List MediaItem) : List MediaItem :=
  media.filter fun m => decide (m.kind = MKind.image) && captionMissing m.caption

/-- Write a caption onto the first item whose id matches, provided it is an
image, mirroring the findIndex-and-assign step of generateCaptions.  The
source mutates the item object in place: because the copied array shares
its item objects with the state array, the assignment is visible in the
media state even when setMedia is never reached. -/
def assignCaption : List MediaItem → String → String → List MediaItem
  | [], _, _ => []
  | m :: rest, tid, c =>
    if m.id = tid then
      (if m.kind = MKind.image then { m with caption := some c } :: rest
       else m :: rest)
    else m :: assignCaption rest tid c

/-- The captioning loop of generateCaptions over the fixed list of images
to caption; the external caption service is svc, keyed by item id, with
none modelling a thrown error.  A failure aborts the loop; captions
assigned before the failure stay in the list (object aliasing, see
assignCaption).  The boolean records whether the pass completed. -/
def captionPass (svc : String → Option String) :
    List MediaItem → List MediaItem → List MediaItem × Bool
  | cur, [] => (cur, true)
  | cur, m :: rest =>
    match svc m.id with
    | none => (cur, false)
    | some c => captionPass svc (assignCaption cur m.id c) rest

/-- generateCaptions (src/App.tsx, lines 284-319): early return when
captions are disabled, a pass is already running, or no API key is
available; otherwise run the captioning loop and set the status to done on
success and to error on a thrown caption call. -/
def generateCaptions (smartCaptionsEnabled : Bool)
    (captionStatus : CaptionStatus) (isApiKeyAvailable : Bool)
    (media : List MediaItem) (svc : String → Option String) :
    List MediaItem × CaptionStatus :=
  if !smartCaptionsEnabled || decide (captionStatus = CaptionStatus.generating)
      || !isApiKeyAvailable then
    (media, captionStatus)
  else
    let toCap := imagesToCaption media
    if toCap.isEmpty then
      (media, if media.length > 0 then CaptionStatus.done else captionStatus)
    else
      match captionPass svc media toCap with
      | (l, true) => (l, CaptionStatus.done)
      | (l, false) => (l, CaptionStatus.error)

/-- Caption preservation between an item and its successor state: a
nonempty caption that was present is still present and unchanged.  An
empty-string caption is falsy to the source's filter, so a later pass may
re-caption it. -/
def capPreserved (a b : MediaItem) : Prop :=
  ∀ c : String, a.caption = some c → c.isEmpty = false → b.caption = some c

/-! ## Media upload -/

/-- Kind of an uploaded file, from the MIME type prefix; other covers files
that are neither image nor video and are skipped silently. -/
inductive UpKind
  | image
  | video
  | other
  deriving DecidableEq

/-- An uploaded file: name, kind and (for videos) the probed duration. -/
structure UpFile where
  name : String
  kind : UpKind
  duration : ℚ
  deriving DecidableEq

/-- Image cap enforced at upload time. -/
def MAX_IMAGES : ℕ := 30

/-- Video cap enforced at upload time. -/
def MAX_VIDEOS : ℕ := 1

/-- Maximum probed video duration, in seconds. -/
def MAX_VIDEO_DURATION : ℚ := 30

/-- Number of images currently in a media list. -/
def imageCountOf (l : List MediaItem) : ℕ :=
  (l.filter fun m => decide (m.kind = MKind.image)).length

/-- Number of videos currently in a media list. -/
def videoCountOf (l : List MediaItem) : ℕ :=
  (l.filter fun m => decide (m.kind = MKind.video)).length

/-- The media item pushed for an accepted upload. -/
def uploadItem (f : UpFile) (k : MKind) : MediaItem := ⟨f.name, k, none⟩

/-- Alert shown when the image cap is hit. -/
def maxImagesMsg : String :=
  s!"Maximum of {MAX_IMAGES} images reached. Some images were not uploaded."

/-- Alert shown when a probed video duration exceeds the cap. -/
def vidDurMsg (f : UpFile) : String :=
  let nm := f.name
  s!"Video \x22{nm}\x22 exceeds the {MAX_VIDEO_DURATION}s limit and was not uploaded."

/-- Alert shown when a second video is uploaded. -/
def maxVideosMsg : String :=
  s!"Maximum of {MAX_VIDEOS} video reached. Some videos were not uploaded."

/-- processFiles inside handleMediaUpload (src/App.tsx, lines 638-695):
walk the batch in order against the running list; an image beyond the cap
alerts and breaks out of the loop, a second video or an over-long video
alerts and skips only that file.  Returns the final list and the alert
messages in order. -/
def processFiles : List UpFile → List MediaItem → List MediaItem × List String
  | [], cur => (cur, [])
  | f :: rest, cur =>
    match f.kind with
    | UpKind.image =>
      if imageCountOf cur < MAX_IMAGES then
        processFiles rest (cur ++ [uploadItem f MKind.image])
      else
        (cur, [maxImagesMsg])
    | UpKind.video =>
      if videoCountOf cur < MAX_VIDEOS then
        if f.duration > MAX_VIDEO_DURATION then
          let r := processFiles rest cur
          (r.1, vidDurMsg f :: r.2)
        else processFiles rest (cur ++ [uploadItem f MKind.video])
      else
        let r := processFiles rest cur
        (r.1, maxVideosMsg :: r.2)
    | UpKind.other => processFiles rest cur

/-- The media item a batch file turns into when every limit check passes;
files that are neither image nor video are skipped silently. -/
def acceptedItem (f : UpFile) : Option MediaItem :=
  match f.kind with
  | UpKind.image => some (uploadItem f MKind.image)
  | UpKind.video => some (uploadItem f MKind.video)
  | UpKind.other => none

/-! ## Concrete instances used by counterexamples and witnesses -/

/-- A media list holding a single video item. -/
def singleVideo : List MediaItem := [⟨"v", MKind.video, none⟩]

/-- Snapshot of a run started before the audio changed: 10 images, no
video, 20s audio, interval 5. -/
def snapStale : Snapshot := ⟨10, [], 20, 5, none⟩

/-- Snapshot of a run started after the audio changed to 30s. -/
def snapFresh : Snapshot := ⟨10, [], 30, 5, none⟩

/-- Quiescent controller state before the overlapping runs resolve. -/
def s0 : CtrlState := ⟨false, 5, none⟩

/-- Concrete controller inputs: 20s audio, 10 images, no video. -/
def inp1 : Inputs := ⟨some 20, 10, []⟩

/-- Media list for the captioning witness: two uncaptioned images and one
already-captioned image. -/
def media0 : List MediaItem :=
  [⟨"a", MKind.image, none⟩, ⟨"b", MKind.image, none⟩,
   ⟨"c", MKind.image, some "keep"⟩]

/-- Caption service for the captioning witness: succeeds on the first
image and throws on the second. -/
def svc0 : String → Option String :=
  fun tid => if tid = "a" then some "capA" else none

/-- Media list for the captioning counterexample: an image whose caption
was already obtained (the empty string, as produced by trimming a
whitespace-only caption) and an uncaptioned image. -/
def mediaE : List MediaItem :=
  [⟨"a", MKind.image, some ""⟩, ⟨"b", MKind.image, none⟩]

/-- Caption service for the captioning counterexample: recaptions the
first image and throws on the second. -/
def svcE : String → Option String :=
  fun tid => if tid = "a" then some "newA" else none

/-- A media list already holding the maximum number of images. -/
def initial30 : List MediaItem :=
  List.replicate 30 ⟨"i", MKind.image, none⟩

/-- A one-image upload batch for the upload witness. -/
def batch1 : List UpFile := [⟨"a", UpKind.image, 0⟩]

/-- An upload batch: one image over the cap followed by a video that is
within every limit. -/
def batch0 : List UpFile :=
  [⟨"x", UpKind.image, 0⟩, ⟨"v", UpKind.video, 10⟩]

/-! ## Branch evaluation lemmas for the duration aggregator -/

/-- Evaluation of computeAdjustment when the audio is at least as long as
the planned visual duration. -/
theorem adjust_eq_noBranch (n : ℕ) (vds : List ℚ) (A : ℚ) (c : ℤ)
    (h : ¬ A < (n : ℚ) * (c : ℚ) + vds.sum) :
    computeAdjustment n vds A c = ⟨c, false, NoticeAction.clearIfSet⟩ := by
  simp only [computeAdjustment]
  rw [if_neg h]

/-- Evaluation of computeAdjustment in the image branch when the computed
interval already equals the current one. -/
theorem adjust_eq_skip1 (n : ℕ) (vds : List ℚ) (A : ℚ) (c : ℤ)
    (h1 : A < (n : ℚ) * (c : ℚ) + vds.sum) (h2 : 0 < A - vds.sum)
    (h3 : max 1 ⌊(A - vds.sum) / (n : ℚ)⌋ = c) :
    computeAdjustment n vds A c = ⟨c, false, NoticeAction.skip⟩ := by
  simp only [computeAdjustment]
  rw [if_pos h1, if_pos h2, if_pos h3]

/-- Evaluation of computeAdjustment in the image branch when the computed
interval differs from the current one. -/
theorem adjust_eq_write1 (n : ℕ) (vds : List ℚ) (A : ℚ) (c : ℤ)
    (h1 : A < (n : ℚ) * (c : ℚ) + vds.sum) (h2 : 0 < A - vds.sum)
    (h3 : ¬ max 1 ⌊(A - vds.sum) / (n : ℚ)⌋ = c) :
    computeAdjustment n vds A c =
      ⟨max 1 ⌊(A - vds.sum) / (n : ℚ)⌋, true,
       NoticeAction.set (adjustedMsg (max 1 ⌊(A - vds.sum) / (n : ℚ)⌋))⟩ := by
  simp only [computeAdjustment]
  rw [if_pos h1, if_pos h2, if_neg h3]

/-- Evaluation of computeAdjustment in the too-short branch when the
interval is already 1. -/
theorem adjust_eq_skip2 (n : ℕ) (vds : List ℚ) (A : ℚ) (c : ℤ)
    (h1 : A < (n : ℚ) * (c : ℚ) + vds.sum) (h2 : ¬ 0 < A - vds.sum)
    (h4 : c = 1) :
    computeAdjustment n vds A c = ⟨c, false, NoticeAction.skip⟩ := by
  simp only [computeAdjustment]
  rw [if_pos h1, if_neg h2, if_pos h4]

/-- Evaluation of computeAdjustment in the too-short branch when the
interval is not 1. -/
theorem adjust_eq_write2 (n : ℕ) (vds : List ℚ) (A : ℚ) (c : ℤ)
    (h1 : A < (n : ℚ) * (c : ℚ) + vds.sum) (h2 : ¬ 0 < A - vds.sum)
    (h4 : ¬ c = 1) :
    computeAdjustment n vds A c = ⟨1, true, NoticeAction.set tooShortMsg⟩ := by
  simp only [computeAdjustment]
  rw [if_pos h1, if_neg h2, if_neg h4]

/-- When computeAdjustment does not write, the resulting interval is the
input interval. -/
theorem adjust_interval_of_not_wrote (n : ℕ) (vds : List ℚ) (A : ℚ) (c : ℤ)
    (h : (computeAdjustment n vds A c).wroteInterval = false) :
    (computeAdjustment n vds A c).interval = c := by
  simp only [computeAdjustment] at h ⊢
  split_ifs at h ⊢ <;> simp_all

/-- The interval produced by computeAdjustment is a fixed point: running
the computation again on its own output never writes. -/
theorem adjust_fixed (n : ℕ) (vds : List ℚ) (A : ℚ) (c : ℤ) :
    (computeAdjustment n vds A
      ((computeAdjustment n vds A c).interval)).wroteInterval = false := by
  by_cases h1 : A < (n : ℚ) * (c : ℚ) + vds.sum
  · by_cases h2 : 0 < A - vds.sum
    · have hn : 0 < n := by
        rcases Nat.eq_zero_or_pos n with h | h
        · subst h; simp only [Nat.cast_zero, zero_mul, zero_add] at h1; linarith
        · exact h
      have hnq : (0 : ℚ) < (n : ℚ) := by exact_mod_cast hn
      by_cases h3 : max 1 ⌊(A - vds.sum) / (n : ℚ)⌋ = c
      · rw [adjust_eq_skip1 n vds A c h1 h2 h3, adjust_eq_skip1 n vds A c h1 h2 h3]
      · rw [adjust_eq_write1 n vds A c h1 h2 h3]
        rcases le_or_lt 1 ⌊(A - vds.sum) / (n : ℚ)⌋ with hle | hlt
        · have hmax : max 1 ⌊(A - vds.sum) / (n : ℚ)⌋ =
              ⌊(A - vds.sum) / (n : ℚ)⌋ := max_eq_right hle
          have hfl : ((⌊(A - vds.sum) / (n : ℚ)⌋ : ℚ)) ≤ (A - vds.sum) / (n : ℚ) :=
            Int.floor_le _
          have hmul : ((⌊(A - vds.sum) / (n : ℚ)⌋ : ℚ)) * (n : ℚ) ≤ A - vds.sum := by
            rw [← le_div_iff₀ hnq]
            exact hfl
          have hno : ¬ A < (n : ℚ) * ((max 1 ⌊(A - vds.sum) / (n : ℚ)⌋ : ℤ) : ℚ)
              + vds.sum := by
            rw [hmax]
            nlinarith [hmul]
          rw [adjust_eq_noBranch n vds A _ hno]
        · have hmax : max 1 ⌊(A - vds.sum) / (n : ℚ)⌋ = 1 :=
            max_eq_left (by omega)
          have hlt1 : (A - vds.sum) / (n : ℚ) < 1 := by
            have := Int.lt_floor_add_one ((A - vds.sum) / (n : ℚ))
            have hle0 : ((⌊(A - vds.sum) / (n : ℚ)⌋ : ℚ)) + 1 ≤ 1 := by
              have : ⌊(A - vds.sum) / (n : ℚ)⌋ + 1 ≤ 1 := by omega
              exact_mod_cast this
            linarith
          have hsz : A - vds.sum < (n : ℚ) := by
            rw [div_lt_one hnq] at hlt1
            exact hlt1
          have h1' : A < (n : ℚ) * ((max 1 ⌊(A - vds.sum) / (n : ℚ)⌋ : ℤ) : ℚ)
              + vds.sum := by
            rw [hmax]
            push_cast
            linarith
          rw [hmax] at h1' ⊢
          rw [adjust_eq_skip1 n vds A 1 h1' h2 hmax]
    · by_cases h4 : c = 1
      · rw [adjust_eq_skip2 n vds A c h1 h2 h4,
          adjust_eq_skip2 n vds A c h1 h2 h4]
      · rw [adjust_eq_write2 n vds A c h1 h2 h4]
        by_cases h1' : A < (n : ℚ) * ((1 : ℤ) : ℚ) + vds.sum
        · rw [adjust_eq_skip2 n vds A 1 h1' h2 rfl]
        · rw [adjust_eq_noBranch n vds A 1 h1']
  · rw [adjust_eq_noBranch n vds A c h1, adjust_eq_noBranch n vds A c h1]

/-! ## Claims C3, C4, C5, C6 -/

/-- C3: under a too-long visual plan, the adjustment computes the floored
interval with its notice exactly on change, or clamps to 1 with the
too-short notice exactly when the interval was not 1; in particular 10
images at interval 5 with no video and 20s audio yield interval 2 with the
adjustment notice. -/
theorem adjust_c3 (n : ℕ) (vds : List ℚ) (A : ℚ) (c : ℤ)
    (hn : 0 < n) (h1 : A < (n : ℚ) * (c : ℚ) + vds.sum) :
    (0 < A - vds.sum →
      (computeAdjustment n vds A c).interval =
        max 1 ⌊(A - vds.sum) / (n : ℚ)⌋ ∧
      ((computeAdjustment n vds A c).act =
          NoticeAction.set (adjustedMsg (max 1 ⌊(A - vds.sum) / (n : ℚ)⌋)) ↔
        max 1 ⌊(A - vds.sum) / (n : ℚ)⌋ ≠ c)) ∧
    (A - vds.sum ≤ 0 →
      (computeAdjustment n vds A c).interval = 1 ∧
      ((computeAdjustment n vds A c).act = NoticeAction.set tooShortMsg ↔
        c ≠ 1)) ∧
    computeAdjustment 10 [] 20 5 =
      ⟨2, true, NoticeAction.set (adjustedMsg 2)⟩ := by
  refine ⟨?_, ?_, ?_⟩
  · intro h2
    by_cases h3 : max 1 ⌊(A - vds.sum) / (n : ℚ)⌋ = c
    · rw [adjust_eq_skip1 n vds A c h1 h2 h3]
      simp [h3]
    · rw [adjust_eq_write1 n vds A c h1 h2 h3]
      simp [h3]
  · intro h2
    have h2' : ¬ 0 < A - vds.sum := not_lt.mpr h2
    by_cases h4 : c = 1
    · rw [adjust_eq_skip2 n vds A c h1 h2' h4]
      simp [h4]
    · rw [adjust_eq_write2 n vds A c h1 h2' h4]
      simp [h4]
  · simp only [computeAdjustment]
    norm_num

/-- Witness for C3 at Scenario B: 10 images, interval 5, no video,
20s audio. -/
theorem adjust_c3_witness :
    (0 < (20 : ℚ) - ([] : List ℚ).sum →
      (computeAdjustment 10 [] 20 5).interval =
        max 1 ⌊((20 : ℚ) - ([] : List ℚ).sum) / ((10 : ℕ) : ℚ)⌋ ∧
      ((computeAdjustment 10 [] 20 5).act =
          NoticeAction.set (adjustedMsg
            (max 1 ⌊((20 : ℚ) - ([] : List ℚ).sum) / ((10 : ℕ) : ℚ)⌋)) ↔
        max 1 ⌊((20 : ℚ) - ([] : List ℚ).sum) / ((10 : ℕ) : ℚ)⌋ ≠ 5)) ∧
    ((20 : ℚ) - ([] : List ℚ).sum ≤ 0 →
      (computeAdjustment 10 [] 20 5).interval = 1 ∧
      ((computeAdjustment 10 [] 20 5).act = NoticeAction.set tooShortMsg ↔
        (5 : ℤ) ≠ 1)) ∧
    computeAdjustment 10 [] 20 5 =
      ⟨2, true, NoticeAction.set (adjustedMsg 2)⟩ :=
  adjust_c3 10 [] 20 5 (by norm_num) (by norm_num)

/-- Helper: computeAdjustment never lowers the interval below 1 when the
input interval is at least 1. -/
theorem adjust_ge_one (n : ℕ) (vds : List ℚ) (A : ℚ) (c : ℤ) (hc : 1 ≤ c) :
    1 ≤ (computeAdjustment n vds A c).interval := by
  simp only [computeAdjustment]
  split_ifs <;> simp_all [le_max_left]

/-- C4: the interval resulting from the adjustment computation, and hence
every interval the controller writes, is an integer at least 1. -/
theorem adjust_floor (n : ℕ) (vds : List ℚ) (A : ℚ) (c : ℤ) (hc : 1 ≤ c) :
    1 ≤ (computeAdjustment n vds A c).interval ∧
    (∀ inp : Inputs, ∀ s : CtrlState, 1 ≤ s.interval →
      1 ≤ (ctrlStep inp s).interval) := by
  refine ⟨adjust_ge_one n vds A c hc, ?_⟩
  intro inp s hs
  by_cases hf : s.flag = true
  · simp only [ctrlStep, if_pos hf]
    exact hs
  · cases ha : inp.audio with
    | none =>
      simp only [ctrlStep, if_neg hf, ha]
      exact hs
    | some aud =>
      by_cases hz : inp.imageCount = 0
      · simp only [ctrlStep, if_neg hf, ha, if_pos hz]
        exact hs
      · simp only [ctrlStep, if_neg hf, ha, if_neg hz]
        exact adjust_ge_one inp.imageCount inp.videoDurations aud s.interval hs

/-- Witness for C4 at a concrete input. -/
theorem adjust_floor_witness :
    1 ≤ (computeAdjustment 10 [] 20 5).interval ∧
    (∀ inp : Inputs, ∀ s : CtrlState, 1 ≤ s.interval →
      1 ≤ (ctrlStep inp s).interval) :=
  adjust_floor 10 [] 20 5 (by norm_num)

/-- C5: the adjustment computation is idempotent: rerunning it with the
current interval set to its previous output yields the same interval. -/
theorem adjust_idempotent (n : ℕ) (vds : List ℚ) (A : ℚ) (c : ℤ) :
    (computeAdjustment n vds A
        ((computeAdjustment n vds A c).interval)).interval =
      (computeAdjustment n vds A c).interval :=
  adjust_interval_of_not_wrote n vds A _ (adjust_fixed n vds A c)

/-- C6: when the audio covers the planned visual duration, the interval is
unchanged, nothing is written, and the notice is null afterwards. -/
theorem adjust_noop (n : ℕ) (vds : List ℚ) (A : ℚ) (c : ℤ)
    (old : Option String) (h : (n : ℚ) * (c : ℚ) + vds.sum ≤ A) :
    (computeAdjustment n vds A c).interval = c ∧
    (computeAdjustment n vds A c).wroteInterval = false ∧
    applyNotice old old (computeAdjustment n vds A c).act = none := by
  rw [adjust_eq_noBranch n vds A c (not_lt.mpr h)]
  refine ⟨rfl, rfl, ?_⟩
  cases old <;> simp [applyNotice]

/-- Witness for C6: 5 images at interval 5 with no video and 60s audio
(Scenario A). -/
theorem adjust_noop_witness :
    (computeAdjustment 5 [] 60 5).interval = 5 ∧
    (computeAdjustment 5 [] 60 5).wroteInterval = false ∧
    applyNotice (some "x") (some "x") (computeAdjustment 5 [] 60 5).act =
      none :=
  adjust_noop 5 [] 60 5 (some "x") (by norm_num)

/-! ## Controller lemmas for the one-shot flag (C1) -/

/-- Whether an invocation writes depends only on the flag and the interval,
never on the notification. -/
theorem ctrlWrites_eq_plain (inp : Inputs) (s : CtrlState)
    (hf : s.flag = false) :
    ctrlWrites inp s = ctrlWrites inp ⟨false, s.interval, none⟩ := by
  cases s with
  | mk f i nt =>
    simp only at hf
    subst hf
    rfl

/-- An invocation that finds the flag set consumes it and does nothing
else: no recomputation, no interval write, no notice change. -/
theorem ctrlStep_consume (inp : Inputs) (s : CtrlState) (hf : s.flag = true) :
    ctrlStep inp s = { s with flag := false } ∧ ctrlWrites inp s = false := by
  simp [ctrlStep, ctrlWrites, hf]

/-- A non-writing invocation leaves the interval unchanged and the flag
cleared. -/
theorem ctrlStep_no_write (inp : Inputs) (s : CtrlState)
    (hf : s.flag = false) (hw : ctrlWrites inp s = false) :
    (ctrlStep inp s).interval = s.interval ∧ (ctrlStep inp s).flag = false := by
  have hf' : ¬ s.flag = true := by simp [hf]
  cases ha : inp.audio with
  | none =>
    simp [ctrlStep, if_neg hf', ha, hf]
  | some aud =>
    by_cases hz : inp.imageCount = 0
    · simp [ctrlStep, if_neg hf', ha, hz, hf]
    · simp only [ctrlStep, if_neg hf', ha, if_neg hz]
      simp only [ctrlWrites, if_neg hf', ha, if_neg hz] at hw
      exact ⟨adjust_interval_of_not_wrote _ _ _ _ hw, hw⟩

/-- After a writing invocation, the interval is a fixed point: a fresh
recomputation at the written interval does not write. -/
theorem ctrlStep_write_fixed (inp : Inputs) (s : CtrlState)
    (hw : ctrlWrites inp s = true) :
    ctrlWrites inp ⟨false, (ctrlStep inp s).interval, none⟩ = false := by
  by_cases hf : s.flag = true
  · simp [ctrlWrites, hf] at hw
  · cases ha : inp.audio with
    | none => simp [ctrlWrites, if_neg hf, ha] at hw
    | some aud =>
      by_cases hz : inp.imageCount = 0
      · simp [ctrlWrites, if_neg hf, ha, hz] at hw
      · have hstep : (ctrlStep inp s).interval =
            (computeAdjustment inp.imageCount inp.videoDurations aud
              s.interval).interval := by
          simp [ctrlStep, if_neg hf, ha, if_neg hz]
        rw [hstep]
        simp only [ctrlWrites, ha, if_neg hz, Bool.false_eq_true,
          if_false]
        exact adjust_fixed inp.imageCount inp.videoDurations aud s.interval

/-- Once the interval is a fixed point for the inputs, no later invocation
at those inputs ever writes. -/
theorem writeCount_zero (inp : Inputs) :
    ∀ (n : ℕ) (s : CtrlState),
      ctrlWrites inp ⟨false, s.interval, none⟩ = false →
      writeCount inp n s = 0 := by
  intro n
  induction n with
  | zero => intro s _; rfl
  | succ n ih =>
    intro s hfix
    by_cases hf : s.flag = true
    · obtain ⟨hstep, hw⟩ := ctrlStep_consume inp s hf
      simp only [writeCount, hw]
      rw [hstep]
      have heq : ({ s with flag := false } : CtrlState).interval = s.interval :=
        rfl
      rw [ih _ (by rw [heq]; exact hfix)]
      simp
    · have hf' : s.flag = false := by simpa using hf
      have hw : ctrlWrites inp s = false := by
        rw [ctrlWrites_eq_plain inp s hf']
        exact hfix
      obtain ⟨hint, _⟩ := ctrlStep_no_write inp s hf' hw
      simp only [writeCount, hw]
      rw [ih _ (by rw [hint]; exact hfix)]
      simp

/-- C1: a writing invocation sets the one-shot flag; the next invocation
consumes the flag and performs no recomputation, interval write or notice
change; and from a quiescent state, any number of invocations at fixed
inputs write the interval at most once. -/
theorem auto_adjust_one_shot (inp : Inputs) (s : CtrlState) (n : ℕ) :
    (ctrlWrites inp s = true → (ctrlStep inp s).flag = true) ∧
    (s.flag = true → ctrlStep inp s = { s with flag := false } ∧
      ctrlWrites inp s = false) ∧
    (s.flag = false → writeCount inp n s ≤ 1) := by
  refine ⟨?_, fun hf => ctrlStep_consume inp s hf, ?_⟩
  · intro hw
    by_cases hf : s.flag = true
    · simp [ctrlWrites, hf] at hw
    · cases ha : inp.audio with
      | none => simp [ctrlWrites, if_neg hf, ha] at hw
      | some aud =>
        by_cases hz : inp.imageCount = 0
        · simp [ctrlWrites, if_neg hf, ha, hz] at hw
        · simp only [ctrlWrites, if_neg hf, ha, if_neg hz] at hw
          simp [ctrlStep, if_neg hf, ha, if_neg hz, hw]
  · intro hf
    cases n with
    | zero => simp [writeCount]
    | succ n =>
      by_cases hw : ctrlWrites inp s = true
      · have hfix := ctrlStep_write_fixed inp s hw
        simp only [writeCount, hw]
        rw [writeCount_zero inp n (ctrlStep inp s) hfix]
        simp
      · have hw' : ctrlWrites inp s = false := by simpa using hw
        obtain ⟨hint, _⟩ := ctrlStep_no_write inp s hf hw'
        simp only [writeCount, hw']
        have hfix : ctrlWrites inp ⟨false, (ctrlStep inp s).interval, none⟩ =
            false := by
          rw [hint, ← ctrlWrites_eq_plain inp s hf]
          exact hw'
        rw [writeCount_zero inp n (ctrlStep inp s) hfix]
        simp

/-- Witness for C1: 10 images, 20s audio, interval 5 writes once and only
once over three invocations. -/
theorem auto_adjust_one_shot_witness :
    ctrlWrites inp1 s0 = true ∧ (ctrlStep inp1 s0).flag = true ∧
    writeCount inp1 3 s0 ≤ 1 := by
  have hw : ctrlWrites inp1 s0 = true := by
    simp only [ctrlWrites, inp1, s0, computeAdjustment]
    norm_num
  exact ⟨hw, (auto_adjust_one_shot inp1 s0 3).1 hw,
    (auto_adjust_one_shot inp1 s0 3).2.2 rfl⟩

/-! ## Stale asynchronous runs (C2) -/

/-- Counterexample to C2: inputs change from 20s audio to 30s audio while
the first probe is in flight.  The fresh run resolves first and writes
interval 3; the stale run then resolves and overwrites the interval with
2, computed from the older inputs.  The state finally applied is the stale
one, contradicting the claim that the state finally applied is the one
computed from the most recent inputs. -/
theorem stale_overwrite_cex :
    (resolveRun snapFresh s0).interval = 3 ∧
    (resolveRun snapStale (resolveRun snapFresh s0)).interval = 2 ∧
    (2 : ℤ) ≠ 3 := by
  have hfresh : computeAdjustment 10 [] 30 5 =
      ⟨3, true, NoticeAction.set (adjustedMsg 3)⟩ := by
    simp only [computeAdjustment]
    norm_num
  have hstale : computeAdjustment 10 [] 20 5 =
      ⟨2, true, NoticeAction.set (adjustedMsg 2)⟩ := by
    simp only [computeAdjustment]
    norm_num
  refine ⟨?_, ?_, by decide⟩
  · simp [resolveRun, snapFresh, s0, hfresh]
  · simp [resolveRun, snapFresh, snapStale, s0, hfresh, hstale]

/-- C2 amended: the controller has no stale-run discard; when an
asynchronous run whose snapshot computation writes finally resolves, it
imposes the interval computed from its own snapshot regardless of the
current state, so the state finally applied is that of the last-resolving
run, not necessarily the one from the most recent inputs. -/
theorem stale_run_overwrites (snap : Snapshot) (s : CtrlState)
    (hw : (computeAdjustment snap.imageCount snap.videoDurations
      snap.audioDuration snap.interval).wroteInterval = true) :
    (resolveRun snap s).interval =
      (computeAdjustment snap.imageCount snap.videoDurations
        snap.audioDuration snap.interval).interval ∧
    (resolveRun snap s).flag = true := by
  simp [resolveRun, hw]

/-- Witness for the amended C2: the stale run resolving last imposes its
snapshot-computed interval over the fresher state. -/
theorem stale_run_overwrites_witness :
    (resolveRun snapStale (resolveRun snapFresh s0)).interval =
      (computeAdjustment snapStale.imageCount snapStale.videoDurations
        snapStale.audioDuration snapStale.interval).interval ∧
    (resolveRun snapStale (resolveRun snapFresh s0)).flag = true :=
  stale_run_overwrites snapStale (resolveRun snapFresh s0) (by
    simp only [snapStale, computeAdjustment]
    norm_num)

/-! ## Playback state machine: single item (C7) -/

/-- Counterexample to C7: with a single video item, the slide timer is not
armed, but the rendered video element still carries the ended listener, so
an advancement signal is armed after all. -/
theorem single_video_cex :
    singleVideo.length = 1 ∧ endedListenerArmed singleVideo 0 = true := by
  constructor
  · rfl
  · simp [endedListenerArmed, singleVideo]

/-- C7 amended: with exactly one item no slide timer is armed, the video
ended listener is attached exactly when the single item is a video, and
firing it leaves the index at 0, so the item is shown indefinitely until
Close. -/
theorem single_item_no_timer (media : List MediaItem) (idx : ℕ)
    (h : media.length = 1) :
    slideTimerArmed media idx = false ∧
    (endedListenerArmed media idx = true ↔
      ∃ m, media[idx]? = some m ∧ m.kind = MKind.video) ∧
    advanceSlide media.length idx = 0 := by
  refine ⟨?_, ?_, ?_⟩
  · simp [slideTimerArmed, h]
  · simp only [endedListenerArmed]
    cases hm : media[idx]? with
    | none => simp
    | some m => simp
  · simp only [advanceSlide, h]
    omega

/-- Witness for the amended C7 at the single-video list. -/
theorem single_item_no_timer_witness :
    slideTimerArmed singleVideo 0 = false ∧
    (endedListenerArmed singleVideo 0 = true ↔
      ∃ m, singleVideo[0]? = some m ∧ m.kind = MKind.video) ∧
    advanceSlide singleVideo.length 0 = 0 :=
  single_item_no_timer singleVideo 0 rfl

/-! ## Audio fade-out (C8) -/

/-- The fade volume never becomes negative. -/
theorem fadeVolume_nonneg (v0 dec : ℚ) (hv : 0 ≤ v0) :
    ∀ k, 0 ≤ fadeVolume v0 dec k := by
  intro k
  induction k with
  | zero => exact hv
  | succ k ih => exact le_max_left 0 _

/-- Closed form of the fade volume under a nonnegative decrement. -/
theorem fadeVolume_closed (v0 dec : ℚ) (hv : 0 ≤ v0) (hd : 0 ≤ dec) :
    ∀ k : ℕ, fadeVolume v0 dec k = max 0 (v0 - (k : ℚ) * dec) := by
  intro k
  induction k with
  | zero => simp [fadeVolume, max_eq_right hv]
  | succ k ih =>
    rw [fadeVolume, ih]
    have hc : ((k + 1 : ℕ) : ℚ) = (k : ℚ) + 1 := by push_cast; ring
    rcases le_total (v0 - (k : ℚ) * dec) 0 with hle | hge
    · rw [max_eq_left hle]
      have h1 : v0 - ((k + 1 : ℕ) : ℚ) * dec ≤ 0 := by
        rw [hc]
        nlinarith
      rw [max_eq_left (by linarith : (0 : ℚ) - dec ≤ 0), max_eq_left h1]
    · rw [max_eq_right hge]
      congr 1
      rw [hc]
      ring

/-- C8: on entering the last slide with more than one item and a positive
interval, the fade timer is armed with 50ms ticks and the fixed decrement
volume over interval times 1000 over 50; the volume samples are
monotonically non-increasing, reach exactly 0 after interval times 20
ticks, i.e. at interval times 1000 ms (within one tick period), and a
nonpositive interval schedules no fade timer. -/
theorem fade_out_linear (i : ℤ) (len idx : ℕ) (v0 : ℚ)
    (hi : 0 < i) (hv : 0 ≤ v0) (hlen : 1 < len) (hidx : idx = len - 1) :
    armFade i len idx v0 = some ⟨50, v0 / (20 * (i : ℚ))⟩ ∧
    (∀ k : ℕ, fadeVolume v0 (v0 / (20 * (i : ℚ))) (k + 1) ≤
      fadeVolume v0 (v0 / (20 * (i : ℚ))) k) ∧
    fadeVolume v0 (v0 / (20 * (i : ℚ))) (20 * i).toNat = 0 ∧
    ((20 * i).toNat : ℤ) * 50 = i * 1000 ∧
    (∀ j : ℤ, j ≤ 0 → armFade j len idx v0 = none) := by
  have hiq : (0 : ℚ) < (i : ℚ) := by exact_mod_cast hi
  have hdec : 0 ≤ v0 / (20 * (i : ℚ)) := by positivity
  have htn : ((20 * i).toNat : ℤ) = 20 * i :=
    Int.toNat_of_nonneg (by omega)
  refine ⟨?_, ?_, ?_, ?_, ?_⟩
  · have hpos : ¬ i * 1000 ≤ 0 := by omega
    simp only [armFade, hidx, hlen, and_true, if_pos rfl, if_neg hpos]
    push_cast
    ring_nf
  · intro k
    rw [fadeVolume]
    exact max_le (fadeVolume_nonneg v0 _ hv k)
      (sub_le_self (fadeVolume v0 (v0 / (20 * (i : ℚ))) k) hdec)
  · rw [fadeVolume_closed v0 _ hv hdec]
    have hcast : (((20 * i).toNat : ℕ) : ℚ) = 20 * (i : ℚ) := by
      exact_mod_cast htn
    rw [hcast]
    rw [mul_div_cancel₀ v0 (by positivity : 20 * (i : ℚ) ≠ 0)]
    simp
  · rw [htn]
    ring
  · intro j hj
    have hnp : j * 1000 ≤ 0 := by omega
    simp [armFade, hidx, hlen, hnp]

/-- Witness for C8 at Scenario D: 3 items, last slide entered,
interval 4s, full volume. -/
theorem fade_out_linear_witness :
    armFade 4 3 2 1 = some ⟨50, 1 / (20 * ((4 : ℤ) : ℚ))⟩ ∧
    (∀ k : ℕ, fadeVolume 1 (1 / (20 * ((4 : ℤ) : ℚ))) (k + 1) ≤
      fadeVolume 1 (1 / (20 * ((4 : ℤ) : ℚ))) k) ∧
    fadeVolume 1 (1 / (20 * ((4 : ℤ) : ℚ))) ((20 * (4 : ℤ)).toNat) = 0 ∧
    (((20 * (4 : ℤ)).toNat : ℤ)) * 50 = 4 * 1000 ∧
    (∀ j : ℤ, j ≤ 0 → armFade j 3 2 1 = none) :=
  fade_out_linear 4 3 2 1 (by norm_num) (by norm_num) (by norm_num) rfl

/-! ## Caption generation lemmas (C9) -/

/-- Assigning a caption never changes the ids of the list. -/
theorem assign_map_id (l : List MediaItem) (tid c : String) :
    ((assignCaption l tid c).map fun m => m.id) = l.map fun m => m.id := by
  induction l with
  | nil => rfl
  | cons m rest ih =>
    simp only [assignCaption]
    split_ifs with h1 h2 <;> simp [ih]

/-- Assigning a caption never changes the kinds of the list. -/
theorem assign_map_kind (l : List MediaItem) (tid c : String) :
    ((assignCaption l tid c).map fun m => m.kind) = l.map fun m => m.kind := by
  induction l with
  | nil => rfl
  | cons m rest ih =>
    simp only [assignCaption]
    split_ifs with h1 h2 <;> simp [ih]

/-- Unfolding of find? by id over a cons cell. -/
theorem find_id_cons (m : MediaItem) (rest : List MediaItem) (tid : String) :
    (m :: rest).find? (fun y => y.id == tid) =
      if m.id = tid then some m else rest.find? (fun y => y.id == tid) := by
  by_cases h : m.id = tid
  · rw [if_pos h]
    exact List.find?_cons_of_pos _ (by simp [h])
  · rw [if_neg h]
    exact List.find?_cons_of_neg _ (by simp [h])

/-- Assigning a caption to the id found at an image writes exactly that
caption onto the found item. -/
theorem assign_find_eq (l : List MediaItem) (tid c : String) (x : MediaItem)
    (hfind : l.find? (fun y => y.id == tid) = some x)
    (hkind : x.kind = MKind.image) :
    (assignCaption l tid c).find? (fun y => y.id == tid) =
      some { x with caption := some c } := by
  induction l with
  | nil => simp at hfind
  | cons m rest ih =>
    rw [find_id_cons] at hfind
    by_cases h1 : m.id = tid
    · rw [if_pos h1] at hfind
      have hx : x = m := by
        injection hfind with h
        exact h.symm
      subst hx
      simp only [assignCaption, if_pos h1, if_pos hkind]
      rw [find_id_cons]
      simp [h1]
    · rw [if_neg h1] at hfind
      simp only [assignCaption, if_neg h1]
      rw [find_id_cons, if_neg h1]
      exact ih hfind

/-- Assigning a caption for one id leaves lookups of any other id
unchanged. -/
theorem assign_find_ne (l : List MediaItem) (tid c tid' : String)
    (h : ¬ tid' = tid) :
    (assignCaption l tid c).find? (fun y => y.id == tid') =
      l.find? (fun y => y.id == tid') := by
  induction l with
  | nil => rfl
  | cons m rest ih =>
    by_cases h1 : m.id = tid
    · have hm : ¬ m.id = tid' := by
        rw [h1]
        intro he
        exact h he.symm
      by_cases h2 : m.kind = MKind.image
      · simp only [assignCaption, if_pos h1, if_pos h2]
        rw [find_id_cons, find_id_cons]
        simp [hm]
      · simp only [assignCaption, if_pos h1, if_neg h2]
    · simp only [assignCaption, if_neg h1]
      rw [find_id_cons, find_id_cons]
      by_cases h2 : m.id = tid'
      · rw [if_pos h2, if_pos h2]
      · rw [if_neg h2, if_neg h2]
        exact ih

/-- Assigning a caption at an id whose found item carries a missing
(absent or empty) caption preserves every nonempty caption that was
already present. -/
theorem assign_missing_preserved (l : List MediaItem) (tid c : String)
    (x : MediaItem) (hfind : l.find? (fun y => y.id == tid) = some x)
    (hmiss : captionMissing x.caption = true) :
    List.Forall₂ capPreserved l (assignCaption l tid c) := by
  induction l with
  | nil => exact List.Forall₂.nil
  | cons m rest ih =>
    rw [find_id_cons] at hfind
    by_cases h1 : m.id = tid
    · rw [if_pos h1] at hfind
      have hx : x = m := by
        injection hfind with h
        exact h.symm
      have hmn : captionMissing m.caption = true := by
        rw [← hx]
        exact hmiss
      by_cases h2 : m.kind = MKind.image
      · simp only [assignCaption, if_pos h1, if_pos h2]
        refine List.Forall₂.cons ?_ ?_
        · intro c' hc' hne
          rw [hc'] at hmn
          simp only [captionMissing] at hmn
          simp [hmn] at hne
        · exact List.forall₂_same.mpr fun y _ => fun c' hc' _ => hc'
      · simp only [assignCaption, if_pos h1, if_neg h2]
        exact List.forall₂_same.mpr fun y _ => fun c' hc' _ => hc'
    · rw [if_neg h1] at hfind
      simp only [assignCaption, if_neg h1]
      exact List.Forall₂.cons (fun c' hc' _ => hc') (ih hfind)

/-- Caption preservation composes. -/
theorem capPreserved_trans {a b c : List MediaItem}
    (h1 : List.Forall₂ capPreserved a b)
    (h2 : List.Forall₂ capPreserved b c) :
    List.Forall₂ capPreserved a c := by
  induction h1 generalizing c with
  | nil =>
    cases h2
    exact List.Forall₂.nil
  | @cons x y a' b' hxy h1' ih =>
    cases h2 with
    | cons hyz h2' =>
      refine List.Forall₂.cons ?_ (ih h2')
      intro c' hc' hne
      exact hyz c' (hxy c' hc' hne) hne

/-- Full specification of the captioning loop: ids and kinds are
unchanged, present captions are preserved, lookups of ids outside the work
list are untouched, every item processed before the first failing call
holds the caption the service returned, and the pass reports failure
exactly when some call in the work list fails. -/
theorem captionPass_spec (svc : String → Option String) :
    ∀ (todo cur : List MediaItem),
      ((todo.map fun m => m.id).Nodup) →
      (∀ m ∈ todo, ∃ x, cur.find? (fun y => y.id == m.id) = some x ∧
        x.kind = MKind.image ∧ captionMissing x.caption = true) →
      (((captionPass svc cur todo).1.map fun m => m.id) =
          (cur.map fun m => m.id)) ∧
      (((captionPass svc cur todo).1.map fun m => m.kind) =
          (cur.map fun m => m.kind)) ∧
      List.Forall₂ capPreserved cur (captionPass svc cur todo).1 ∧
      (∀ tid : String, (∀ m ∈ todo, ¬ m.id = tid) →
        (captionPass svc cur todo).1.find? (fun y => y.id == tid) =
          cur.find? (fun y => y.id == tid)) ∧
      (∀ m ∈ todo.take (todo.findIdx fun m => (svc m.id).isNone),
        ((captionPass svc cur todo).1.find?
            (fun y => y.id == m.id)).map (fun x => x.caption) =
          (svc m.id).map some) ∧
      ((captionPass svc cur todo).2 = false ↔ ∃ m ∈ todo, svc m.id = none) := by
  intro todo
  induction todo with
  | nil =>
    intro cur _ _
    refine ⟨rfl, rfl, List.forall₂_same.mpr fun y _ => fun c' hc' _ => hc', fun _ _ => rfl,
      ?_, by simp [captionPass]⟩
    intro m hm
    simp at hm
  | cons m rest ih =>
    intro cur hnd htodo
    obtain ⟨x, hfind, hxk, hxc⟩ := htodo m (List.mem_cons_self m rest)
    have hnd' : ((rest.map fun m => m.id)).Nodup := by
      rw [List.map_cons] at hnd
      exact (List.nodup_cons.mp hnd).2
    have hnotin : m.id ∉ rest.map fun m => m.id := by
      rw [List.map_cons] at hnd
      exact (List.nodup_cons.mp hnd).1
    cases hsvc : svc m.id with
    | none =>
      have hpass : captionPass svc cur (m :: rest) = (cur, false) := by
        simp only [captionPass, hsvc]
      have hidx : ((m :: rest).findIdx fun m => (svc m.id).isNone) = 0 := by
        simp [List.findIdx_cons, hsvc]
      rw [hpass, hidx]
      refine ⟨rfl, rfl, List.forall₂_same.mpr fun y _ => fun c' hc' _ => hc',
        fun _ _ => rfl, ?_, ?_⟩
      · intro m' hm'
        simp at hm'
      · exact ⟨fun _ => ⟨m, List.mem_cons_self m rest, hsvc⟩, fun _ => rfl⟩
    | some c =>
      have htodo' : ∀ m' ∈ rest, ∃ x',
          (assignCaption cur m.id c).find? (fun y => y.id == m'.id) = some x' ∧
          x'.kind = MKind.image ∧ captionMissing x'.caption = true := by
        intro m' hm'
        obtain ⟨x', hf', hk', hc'⟩ := htodo m' (List.mem_cons_of_mem m hm')
        have hne : ¬ m'.id = m.id := by
          intro he
          exact hnotin (he ▸ List.mem_map_of_mem (fun m => m.id) hm')
        exact ⟨x', by rw [assign_find_ne cur m.id c m'.id hne]; exact hf',
          hk', hc'⟩
      obtain ⟨ih1, ih2, ih3, ih4, ih5, ih6⟩ :=
        ih (assignCaption cur m.id c) hnd' htodo'
      have hpass : captionPass svc cur (m :: rest) =
          captionPass svc (assignCaption cur m.id c) rest := by
        simp only [captionPass, hsvc]
      rw [hpass]
      refine ⟨?_, ?_, ?_, ?_, ?_, ?_⟩
      · rw [ih1, assign_map_id]
      · rw [ih2, assign_map_kind]
      · exact capPreserved_trans
          (assign_missing_preserved cur m.id c x hfind hxc) ih3
      · intro tid htid
        have hmne : ¬ tid = m.id := by
          intro he
          exact htid m (List.mem_cons_self m rest) he.symm
        rw [ih4 tid fun m' hm' => htid m' (List.mem_cons_of_mem m hm'),
          assign_find_ne cur m.id c tid hmne]
      · have hidx : ((m :: rest).findIdx fun m => (svc m.id).isNone) =
            (rest.findIdx fun m => (svc m.id).isNone) + 1 := by
          simp [List.findIdx_cons, hsvc]
        rw [hidx, List.take_succ_cons]
        intro m' hm'
        rcases List.mem_cons.mp hm' with rfl | hm''
        · have hrest : ∀ m'' ∈ rest, ¬ m''.id = m'.id := by
            intro m'' hm'' he
            exact hnotin (he ▸ List.mem_map_of_mem (fun m => m.id) hm'')
          rw [ih4 m'.id hrest,
            assign_find_eq cur m'.id c x hfind hxk]
          simp [hsvc]
        · exact ih5 m' hm''
      · rw [ih6]
        constructor
        · intro ⟨m', hm', hs'⟩
          exact ⟨m', List.mem_cons_of_mem m hm', hs'⟩
        · intro ⟨m', hm', hs'⟩
          rcases List.mem_cons.mp hm' with rfl | hm''
          · rw [hsvc] at hs'
            cases hs'
          · exact ⟨m', hm'', hs'⟩

/-- With pairwise distinct ids, looking an item up by its own id finds
exactly that item. -/
theorem find_id_self (l : List MediaItem)
    (hnd : (l.map fun m => m.id).Nodup) (m : MediaItem) (hm : m ∈ l) :
    l.find? (fun y => y.id == m.id) = some m := by
  induction l with
  | nil => simp at hm
  | cons a rest ih =>
    rw [List.map_cons] at hnd
    obtain ⟨hna, hnd'⟩ := List.nodup_cons.mp hnd
    rcases List.mem_cons.mp hm with rfl | hm'
    · rw [find_id_cons, if_pos rfl]
    · have hne : ¬ a.id = m.id := by
        intro he
        exact hna (he ▸ List.mem_map_of_mem (fun m => m.id) hm')
      rw [find_id_cons, if_neg hne]
      exact ih hnd' hm'

/-- C9 amended: when a caption call throws partway through a pass, the
status is set to error, the list keeps its length, ids and kinds, every
nonempty caption already present stays unchanged (an empty-string caption
is falsy to the source's filter, so the pass may re-caption it before
failing), and every image processed before the failing call keeps the
caption the service returned for it (the copied array shares its item
objects with the state array, so those assignments survive the aborted
pass). -/
theorem captions_error_preserves (media : List MediaItem)
    (svc : String → Option String) (status : CaptionStatus)
    (hstatus : status ≠ CaptionStatus.generating)
    (hnd : (media.map fun m => m.id).Nodup)
    (hfail : ∃ m ∈ imagesToCaption media, svc m.id = none) :
    (generateCaptions true status true media svc).2 = CaptionStatus.error ∧
    ((generateCaptions true status true media svc).1.map fun m => m.id) =
      (media.map fun m => m.id) ∧
    ((generateCaptions true status true media svc).1.map fun m => m.kind) =
      (media.map fun m => m.kind) ∧
    List.Forall₂ capPreserved media
      (generateCaptions true status true media svc).1 ∧
    (∀ m ∈ (imagesToCaption media).take
        ((imagesToCaption media).findIdx fun m => (svc m.id).isNone),
      ((generateCaptions true status true media svc).1.find?
          (fun y => y.id == m.id)).map (fun x => x.caption) =
        (svc m.id).map some) := by
  have hndc : ((imagesToCaption media).map fun m => m.id).Nodup :=
    hnd.sublist (List.Sublist.map _ (List.filter_sublist media))
  have htodo : ∀ m ∈ imagesToCaption media, ∃ x,
      media.find? (fun y => y.id == m.id) = some x ∧
      x.kind = MKind.image ∧ captionMissing x.caption = true := by
    intro m hm
    obtain ⟨hmem, hp⟩ := List.mem_filter.mp hm
    refine ⟨m, find_id_self media hnd m hmem, ?_, ?_⟩
    · have := (Bool.and_eq_true _ _).mp hp
      exact of_decide_eq_true this.1
    · have := (Bool.and_eq_true _ _).mp hp
      exact this.2
  obtain ⟨s1, s2, s3, s4, s5, s6⟩ :=
    captionPass_spec svc (imagesToCaption media) media hndc htodo
  have hguard : (!true || decide (status = CaptionStatus.generating) ||
      !true) = false := by
    simp [hstatus]
  have hok : (captionPass svc media (imagesToCaption media)).2 = false :=
    s6.mpr hfail
  have hne : (imagesToCaption media).isEmpty = false := by
    obtain ⟨m, hm, _⟩ := hfail
    rcases he : imagesToCaption media with _ | _
    · rw [he] at hm
      simp at hm
    · rfl
  have hgen : generateCaptions true status true media svc =
      ((captionPass svc media (imagesToCaption media)).1,
        CaptionStatus.error) := by
    rcases hp : captionPass svc media (imagesToCaption media) with ⟨l, ok⟩
    have hok' : ok = false := by
      rw [hp] at hok
      exact hok
    subst hok'
    simp only [generateCaptions, hguard, Bool.false_eq_true, if_false, hne,
      hp]
  rw [hgen]
  exact ⟨rfl, s1, s2, s3, s5⟩

/-- Witness for C9: three images, the first call succeeds, the second
throws; the status is error, the first caption and the pre-existing
caption survive. -/
theorem captions_error_preserves_witness :
    (generateCaptions true CaptionStatus.idle true media0 svc0).2 =
      CaptionStatus.error ∧
    ((generateCaptions true CaptionStatus.idle true media0 svc0).1.map
        fun m => m.id) = (media0.map fun m => m.id) ∧
    ((generateCaptions true CaptionStatus.idle true media0 svc0).1.map
        fun m => m.kind) = (media0.map fun m => m.kind) ∧
    List.Forall₂ capPreserved media0
      (generateCaptions true CaptionStatus.idle true media0 svc0).1 ∧
    (∀ m ∈ (imagesToCaption media0).take
        ((imagesToCaption media0).findIdx fun m => (svc0 m.id).isNone),
      ((generateCaptions true CaptionStatus.idle true media0 svc0).1.find?
          (fun y => y.id == m.id)).map (fun x => x.caption) =
        (svc0 m.id).map some) :=
  captions_error_preserves media0 svc0 CaptionStatus.idle (by decide)
    (by decide) ⟨⟨"b", MKind.image, none⟩, by decide, by decide⟩

/-- Counterexample to C9 as stated: an image already carries the caption
the service produced in an earlier pass, the empty string (trimming a
whitespace-only answer yields it).  The source's truthiness filter treats
it as uncaptioned, so the next pass re-captions the image before throwing
on the second one: after the failing pass the previously obtained caption
no longer remains on its media item. -/
theorem caption_overwrite_cex :
    (generateCaptions true CaptionStatus.idle true mediaE svcE).2 =
      CaptionStatus.error ∧
    (mediaE.find? fun y => y.id == "a") =
      some ⟨"a", MKind.image, some ""⟩ ∧
    ((generateCaptions true CaptionStatus.idle true mediaE svcE).1.find?
        fun y => y.id == "a").map (fun x => x.caption) =
      some (some "newA") ∧
    (some "newA" : Option String) ≠ some "" := by
  refine ⟨?_, ?_, ?_, by decide⟩ <;> decide

/-! ## Media upload lemmas (C10) -/

/-- Image counts add over list concatenation. -/
theorem imageCountOf_append (l1 l2 : List MediaItem) :
    imageCountOf (l1 ++ l2) = imageCountOf l1 + imageCountOf l2 := by
  simp [imageCountOf, List.filter_append]

/-- Video counts add over list concatenation. -/
theorem videoCountOf_append (l1 l2 : List MediaItem) :
    videoCountOf (l1 ++ l2) = videoCountOf l1 + videoCountOf l2 := by
  simp [videoCountOf, List.filter_append]

/-- The upload loop only ever appends to the running list: everything
already accepted stays, unchanged and in place; and every video item in
the appended tail comes from a batch file whose probed duration was
within the cap. -/
theorem processFiles_append : ∀ (files : List UpFile) (cur : List MediaItem),
    ∃ t, (processFiles files cur).1 = cur ++ t ∧
      ∀ m ∈ t, m.kind = MKind.video →
        ∃ f ∈ files, f.kind = UpKind.video ∧
          f.duration ≤ MAX_VIDEO_DURATION ∧ m = uploadItem f MKind.video := by
  intro files
  induction files with
  | nil =>
    intro cur
    refine ⟨[], by simp [processFiles], ?_⟩
    intro m hm
    simp at hm
  | cons f rest ih =>
    intro cur
    cases hk : f.kind with
    | image =>
      by_cases h : imageCountOf cur < MAX_IMAGES
      · obtain ⟨t, ht, hvid⟩ := ih (cur ++ [uploadItem f MKind.image])
        refine ⟨uploadItem f MKind.image :: t, ?_, ?_⟩
        · simp only [processFiles, hk, if_pos h, ht, List.append_assoc,
            List.singleton_append]
        · intro m hm hmv
          rcases List.mem_cons.mp hm with rfl | hm'
          · simp [uploadItem] at hmv
          · obtain ⟨f', hf', hp⟩ := hvid m hm' hmv
            exact ⟨f', List.mem_cons_of_mem f hf', hp⟩
      · refine ⟨[], by simp [processFiles, hk, h], ?_⟩
        intro m hm
        simp at hm
    | video =>
      by_cases h : videoCountOf cur < MAX_VIDEOS
      · by_cases hd : f.duration > MAX_VIDEO_DURATION
        · obtain ⟨t, ht, hvid⟩ := ih cur
          refine ⟨t, ?_, ?_⟩
          · simp only [processFiles, hk, if_pos h, if_pos hd]
            exact ht
          · intro m hm hmv
            obtain ⟨f', hf', hp⟩ := hvid m hm hmv
            exact ⟨f', List.mem_cons_of_mem f hf', hp⟩
        · obtain ⟨t, ht, hvid⟩ := ih (cur ++ [uploadItem f MKind.video])
          refine ⟨uploadItem f MKind.video :: t, ?_, ?_⟩
          · simp only [processFiles, hk, if_pos h, if_neg hd, ht,
              List.append_assoc, List.singleton_append]
          · intro m hm hmv
            rcases List.mem_cons.mp hm with rfl | hm'
            · exact ⟨f, List.mem_cons_self f rest, hk, not_lt.mp hd, rfl⟩
            · obtain ⟨f', hf', hp⟩ := hvid m hm' hmv
              exact ⟨f', List.mem_cons_of_mem f hf', hp⟩
      · obtain ⟨t, ht, hvid⟩ := ih cur
        refine ⟨t, ?_, ?_⟩
        · simp only [processFiles, hk, if_neg h]
          exact ht
        · intro m hm hmv
          obtain ⟨f', hf', hp⟩ := hvid m hm hmv
          exact ⟨f', List.mem_cons_of_mem f hf', hp⟩
    | other =>
      obtain ⟨t, ht, hvid⟩ := ih cur
      refine ⟨t, ?_, ?_⟩
      · simp only [processFiles, hk]
        exact ht
      · intro m hm hmv
        obtain ⟨f', hf', hp⟩ := hvid m hm hmv
        exact ⟨f', List.mem_cons_of_mem f hf', hp⟩

/-- The upload loop preserves the caps: it never pushes the image count
beyond 30 or the video count beyond 1. -/
theorem processFiles_bounds : ∀ (files : List UpFile) (cur : List MediaItem),
    (imageCountOf cur ≤ MAX_IMAGES →
      imageCountOf (processFiles files cur).1 ≤ MAX_IMAGES) ∧
    (videoCountOf cur ≤ MAX_VIDEOS →
      videoCountOf (processFiles files cur).1 ≤ MAX_VIDEOS) := by
  intro files
  induction files with
  | nil =>
    intro cur
    exact ⟨fun h => by simpa [processFiles] using h,
      fun h => by simpa [processFiles] using h⟩
  | cons f rest ih =>
    intro cur
    cases hk : f.kind with
    | image =>
      by_cases h : imageCountOf cur < MAX_IMAGES
      · have hib : imageCountOf (cur ++ [uploadItem f MKind.image]) =
            imageCountOf cur + 1 := by
          rw [imageCountOf_append]
          rfl
        have hvb : videoCountOf (cur ++ [uploadItem f MKind.image]) =
            videoCountOf cur := by
          rw [videoCountOf_append]
          rfl
        constructor <;> intro hc <;>
          simp only [processFiles, hk, if_pos h]
        · exact (ih _).1 (by omega)
        · exact (ih _).2 (by rw [hvb]; exact hc)
      · constructor <;> intro hc <;> simp only [processFiles, hk, if_neg h]
        · exact hc
        · exact hc
    | video =>
      by_cases h : videoCountOf cur < MAX_VIDEOS
      · by_cases hd : f.duration > MAX_VIDEO_DURATION
        · constructor <;> intro hc <;>
            simp only [processFiles, hk, if_pos h, if_pos hd]
          · exact (ih cur).1 hc
          · exact (ih cur).2 hc
        · have hib : imageCountOf (cur ++ [uploadItem f MKind.video]) =
              imageCountOf cur := by
            rw [imageCountOf_append]
            rfl
          have hvb : videoCountOf (cur ++ [uploadItem f MKind.video]) =
              videoCountOf cur + 1 := by
            rw [videoCountOf_append]
            rfl
          constructor <;> intro hc <;>
            simp only [processFiles, hk, if_pos h, if_neg hd]
          · exact (ih _).1 (by rw [hib]; exact hc)
          · exact (ih _).2 (by omega)
      · constructor <;> intro hc <;> simp only [processFiles, hk, if_neg h]
        · exact (ih cur).1 hc
        · exact (ih cur).2 hc
    | other =>
      constructor <;> intro hc <;> simp only [processFiles, hk]
      · exact (ih cur).1 hc
      · exact (ih cur).2 hc

/-- When no message was reported, nothing was rejected: every image and
video file of the batch was appended, in batch order. -/
theorem processFiles_complete : ∀ (files : List UpFile)
    (cur : List MediaItem), (processFiles files cur).2 = [] →
    (processFiles files cur).1 = cur ++ files.filterMap acceptedItem := by
  intro files
  induction files with
  | nil =>
    intro cur _
    simp [processFiles]
  | cons f rest ih =>
    intro cur hmsg
    cases hk : f.kind with
    | image =>
      by_cases h : imageCountOf cur < MAX_IMAGES
      · simp only [processFiles, hk, if_pos h] at hmsg ⊢
        rw [ih _ hmsg, List.filterMap_cons]
        simp [acceptedItem, hk]
      · simp only [processFiles, hk, if_neg h] at hmsg
        simp at hmsg
    | video =>
      by_cases h : videoCountOf cur < MAX_VIDEOS
      · by_cases hd : f.duration > MAX_VIDEO_DURATION
        · simp only [processFiles, hk, if_pos h, if_pos hd] at hmsg
          simp at hmsg
        · simp only [processFiles, hk, if_pos h, if_neg hd] at hmsg ⊢
          rw [ih _ hmsg, List.filterMap_cons]
          simp [acceptedItem, hk]
      · simp only [processFiles, hk, if_neg h] at hmsg
        simp at hmsg
    | other =>
      simp only [processFiles, hk] at hmsg ⊢
      rw [ih _ hmsg, List.filterMap_cons]
      simp [acceptedItem, hk]

/-- When the images of a batch fit under the cap, every image file is
appended, in batch order, regardless of any video rejections in the same
batch: the images of the result are the images already present followed by
the batch's image files. -/
theorem processFiles_images : ∀ (files : List UpFile) (cur : List MediaItem),
    imageCountOf cur +
      (files.filter fun f => decide (f.kind = UpKind.image)).length ≤
        MAX_IMAGES →
    (processFiles files cur).1.filter
        (fun m => decide (m.kind = MKind.image)) =
      cur.filter (fun m => decide (m.kind = MKind.image)) ++
        ((files.filter fun f => decide (f.kind = UpKind.image)).map
          fun f => uploadItem f MKind.image) := by
  intro files
  induction files with
  | nil =>
    intro cur h
    simp [processFiles]
  | cons f rest ih =>
    intro cur h
    cases hk : f.kind with
    | image =>
      have hfil : ((f :: rest).filter fun f => decide (f.kind = UpKind.image))
          = f :: (rest.filter fun f => decide (f.kind = UpKind.image)) := by
        simp [List.filter_cons, hk]
      rw [hfil] at h ⊢
      have hcnt : imageCountOf cur < MAX_IMAGES := by
        simp only [List.length_cons, MAX_IMAGES] at h ⊢
        omega
      simp only [processFiles, hk, if_pos hcnt]
      have hbound : imageCountOf (cur ++ [uploadItem f MKind.image]) +
          (rest.filter fun f => decide (f.kind = UpKind.image)).length ≤
            MAX_IMAGES := by
        rw [imageCountOf_append]
        simp only [List.length_cons] at h
        have hone : imageCountOf [uploadItem f MKind.image] = 1 := rfl
        omega
      rw [ih _ hbound, List.filter_append]
      simp [uploadItem]
    | video =>
      have hfil : ((f :: rest).filter fun f => decide (f.kind = UpKind.image))
          = rest.filter fun f => decide (f.kind = UpKind.image) := by
        simp [List.filter_cons, hk]
      rw [hfil] at h ⊢
      by_cases hv : videoCountOf cur < MAX_VIDEOS
      · by_cases hd : f.duration > MAX_VIDEO_DURATION
        · simp only [processFiles, hk, if_pos hv, if_pos hd]
          exact ih cur h
        · simp only [processFiles, hk, if_pos hv, if_neg hd]
          have hbound : imageCountOf (cur ++ [uploadItem f MKind.video]) +
              (rest.filter fun f => decide (f.kind = UpKind.image)).length ≤
                MAX_IMAGES := by
            rw [imageCountOf_append]
            have hzero : imageCountOf [uploadItem f MKind.video] = 0 := rfl
            omega
          rw [ih _ hbound, List.filter_append]
          simp [uploadItem]
      · simp only [processFiles, hk, if_neg hv]
        exact ih cur h
    | other =>
      have hfil : ((f :: rest).filter fun f => decide (f.kind = UpKind.image))
          = rest.filter fun f => decide (f.kind = UpKind.image) := by
        simp [List.filter_cons, hk]
      rw [hfil] at h ⊢
      simp only [processFiles, hk]
      exact ih cur h

/-- Counterexample to C10: the media list already holds 30 images and the
batch is one more image followed by a video that is within every limit (no
video present, probed duration 10s of a 30s cap).  The over-cap image
aborts the whole batch, so the within-limits video is never appended,
refuting that every item within limits is appended in batch order. -/
theorem upload_break_cex :
    (processFiles batch0 initial30).1 = initial30 ∧
    videoCountOf initial30 < MAX_VIDEOS ∧
    (10 : ℚ) ≤ MAX_VIDEO_DURATION ∧
    videoCountOf (processFiles batch0 initial30).1 = 0 ∧
    (processFiles batch0 initial30).2 ≠ [] := by
  refine ⟨?_, ?_, ?_, ?_, ?_⟩
  · rfl
  · decide
  · norm_num [MAX_VIDEO_DURATION]
  · rfl
  · decide

/-- C10 amended: an item that violates a limit is not added and a message
is reported (no silent drops: a silent batch means every image and video
file was appended in order); previously accepted items always remain, in
place; the caps are never exceeded; every video ever appended had a probed
duration within the 30s cap.  An over-duration video or a second video is
skipped with its message, leaving the rest of the batch processed exactly
as if that file were absent; when the batch's images fit under the cap,
every image file is appended in order regardless of video rejections.  An
over-cap image, however, aborts the remainder of the batch, so later
items, even within limits, are not appended. -/
theorem upload_limits (files : List UpFile) (cur : List MediaItem)
    (hi : imageCountOf cur ≤ MAX_IMAGES)
    (hv : videoCountOf cur ≤ MAX_VIDEOS) :
    (∃ t, (processFiles files cur).1 = cur ++ t ∧
      ∀ m ∈ t, m.kind = MKind.video →
        ∃ f ∈ files, f.kind = UpKind.video ∧
          f.duration ≤ MAX_VIDEO_DURATION ∧ m = uploadItem f MKind.video) ∧
    imageCountOf (processFiles files cur).1 ≤ MAX_IMAGES ∧
    videoCountOf (processFiles files cur).1 ≤ MAX_VIDEOS ∧
    ((processFiles files cur).2 = [] →
      (processFiles files cur).1 = cur ++ files.filterMap acceptedItem) ∧
    (∀ (f : UpFile) (rest : List UpFile) (cur' : List MediaItem),
      f.kind = UpKind.video → videoCountOf cur' < MAX_VIDEOS →
      MAX_VIDEO_DURATION < f.duration →
      (processFiles (f :: rest) cur').1 = (processFiles rest cur').1 ∧
      (processFiles (f :: rest) cur').2 =
        vidDurMsg f :: (processFiles rest cur').2) ∧
    (∀ (f : UpFile) (rest : List UpFile) (cur' : List MediaItem),
      f.kind = UpKind.video → ¬ videoCountOf cur' < MAX_VIDEOS →
      (processFiles (f :: rest) cur').1 = (processFiles rest cur').1 ∧
      (processFiles (f :: rest) cur').2 =
        maxVideosMsg :: (processFiles rest cur').2) ∧
    (imageCountOf cur +
        (files.filter fun f => decide (f.kind = UpKind.image)).length ≤
          MAX_IMAGES →
      (processFiles files cur).1.filter
          (fun m => decide (m.kind = MKind.image)) =
        cur.filter (fun m => decide (m.kind = MKind.image)) ++
          ((files.filter fun f => decide (f.kind = UpKind.image)).map
            fun f => uploadItem f MKind.image)) := by
  refine ⟨processFiles_append files cur, (processFiles_bounds files cur).1 hi,
    (processFiles_bounds files cur).2 hv, processFiles_complete files cur,
    ?_, ?_, processFiles_images files cur⟩
  · intro f rest cur' hkf hv' hd
    constructor <;> simp only [processFiles, hkf, if_pos hv', if_pos hd]
  · intro f rest cur' hkf hv'
    constructor <;> simp only [processFiles, hkf, if_neg hv']

/-- Witness for the amended C10: one in-limits image uploaded into an
empty list. -/
theorem upload_limits_witness :
    (∃ t, (processFiles batch1 []).1 = [] ++ t ∧
      ∀ m ∈ t, m.kind = MKind.video →
        ∃ f ∈ batch1, f.kind = UpKind.video ∧
          f.duration ≤ MAX_VIDEO_DURATION ∧ m = uploadItem f MKind.video) ∧
    imageCountOf (processFiles batch1 []).1 ≤ MAX_IMAGES ∧
    videoCountOf (processFiles batch1 []).1 ≤ MAX_VIDEOS ∧
    ((processFiles batch1 []).2 = [] →
      (processFiles batch1 []).1 = [] ++ batch1.filterMap acceptedItem) ∧
    (∀ (f : UpFile) (rest : List UpFile) (cur' : List MediaItem),
      f.kind = UpKind.video → videoCountOf cur' < MAX_VIDEOS →
      MAX_VIDEO_DURATION < f.duration →
      (processFiles (f :: rest) cur').1 = (processFiles rest cur').1 ∧
      (processFiles (f :: rest) cur').2 =
        vidDurMsg f :: (processFiles rest cur').2) ∧
    (∀ (f : UpFile) (rest : List UpFile) (cur' : List MediaItem),
      f.kind = UpKind.video → ¬ videoCountOf cur' < MAX_VIDEOS →
      (processFiles (f :: rest) cur').1 = (processFiles rest cur').1 ∧
      (processFiles (f :: rest) cur').2 =
        maxVideosMsg :: (processFiles rest cur').2) ∧
    (imageCountOf ([] : List MediaItem) +
        (batch1.filter fun f => decide (f.kind = UpKind.image)).length ≤
          MAX_IMAGES →
      (processFiles batch1 []).1.filter
          (fun m => decide (m.kind = MKind.image)) =
        ([] : List MediaItem).filter (fun m => decide (m.kind = MKind.image)) ++
          ((batch1.filter fun f => decide (f.kind = UpKind.image)).map
            fun f => uploadItem f MKind.image)) :=
  upload_limits batch1 [] (by decide) (by decide)

end Muziq
